import Mathlib

/-!
Shallow embedding of the `stomp` crate (a STOMP client): the frame codec in
`src/frame.rs` (`create`, `parse`) and the receive loop in `src/lib.rs`
(`receive_bytes`), together with proofs about them.

Conventions:
* Rust byte buffers (`Vec<u8>`) are `List Nat` with each element a byte value.
* Rust `String`/`&str` values are `List Char` (Unicode scalars).
* `parse`'s Rust result `Result<Option<(Frame, usize)>, Box<dyn Error>>` is the
  inductive `ParseResult`: `Ok(None)` is `needMoreData`, `Ok(Some (f, n))` is
  `parsed f n`, `Err e` is `malformed msg`, and a Rust panic (an out-of-bounds
  `buffer[i]` index) is `panicked`.
* The gzip decompressor (`flate2::read::GzDecoder` followed by
  `read_to_string`) is external library code, so `parse` is parameterised by a
  function `g : List Nat → Option (List Char)` standing for
  "decompress these bytes and decode them as UTF-8" (`none` meaning the library
  reported an error).
-/

namespace Stomp

/-- Byte-indexing of a `Vec<u8>`: `idx? l i` is `some (l[i])` when `i` is in
bounds and `none` otherwise (the `none` case models a Rust panic site). -/
def idx? {α : Type} : List α → Nat → Option α
  | [], _ => none
  | a :: _, 0 => some a
  | _ :: r, n + 1 => idx? r n

/-- The Unicode White_Space code points, i.e. the characters for which Rust's
`char::is_whitespace` returns true (used by `str::trim_end`). -/
def isRustWhitespace (c : Char) : Bool :=
  c.toNat = 9 ∨ c.toNat = 10 ∨ c.toNat = 11 ∨ c.toNat = 12 ∨ c.toNat = 13 ∨
  c.toNat = 32 ∨ c.toNat = 133 ∨ c.toNat = 160 ∨ c.toNat = 5760 ∨
  (8192 ≤ c.toNat ∧ c.toNat ≤ 8202) ∨ c.toNat = 8232 ∨ c.toNat = 8233 ∨
  c.toNat = 8239 ∨ c.toNat = 8287 ∨ c.toNat = 12288

/-- Rust `str::trim_end`: remove all trailing whitespace characters. -/
def trimEnd (s : List Char) : List Char :=
  (s.reverse.dropWhile isRustWhitespace).reverse

/-- One character of Rust `str::to_lowercase`, for the ASCII range (the full
Unicode lowering table is not modelled; it coincides with this map on all
ASCII input, which covers every header name the repository uses). -/
def toLowerChar (c : Char) : Char :=
  if 65 ≤ c.toNat ∧ c.toNat ≤ 90 then Char.ofNat (c.toNat + 32) else c

/-- Rust `str::to_lowercase` (ASCII fragment, see `toLowerChar`). -/
def toLowerStr (s : List Char) : List Char := s.map toLowerChar

/-- Rust `str::split_inclusive('\n')`: chunks of the string, each chunk ending
with the `'\n'` that terminated it (the final chunk may lack one); the empty
string yields no chunks. -/
def splitInclusiveNL : List Char → List (List Char)
  | [] => []
  | c :: rest =>
    if c = '\n' then ['\n'] :: splitInclusiveNL rest
    else
      match splitInclusiveNL rest with
      | [] => [[c]]
      | p :: ps => (c :: p) :: ps

/-- The per-line map of Rust `str::lines`: strip one trailing `'\n'`, and if
that stripped something, additionally strip one trailing `'\r'`. -/
def lineMap (l : List Char) : List Char :=
  if l.getLast? = some '\n' then
    let l' := l.dropLast
    if l'.getLast? = some '\r' then l'.dropLast else l'
  else l

/-- Rust `str::lines`. -/
def linesRust (s : List Char) : List (List Char) :=
  (splitInclusiveNL s).map lineMap

/-- Rust `str::split_once(":")`: split at the first `':'`. -/
def splitOnceColon : List Char → Option (List Char × List Char)
  | [] => none
  | c :: rest =>
    if c = ':' then some ([], rest)
    else (splitOnceColon rest).map (fun p => (c :: p.1, p.2))

/-- Rust `str::replace` for a two-character pattern: replace every
non-overlapping occurrence of `[p1, p2]`, scanning left to right, by `rep`. -/
def replace2 (p1 p2 : Char) (rep : List Char) : List Char → List Char
  | [] => []
  | [a] => [a]
  | a :: b :: rest =>
    if a = p1 ∧ b = p2 then rep ++ replace2 p1 p2 rep rest
    else a :: replace2 p1 p2 rep (b :: rest)

/-- Rust `str::parse::<usize>()` (with 64-bit `usize`): an optional leading
`'+'`, then at least one ASCII digit, rejecting values that overflow. -/
def parseUsize? (s : List Char) : Option Nat :=
  let digits := match s with
    | '+' :: r => r
    | _ => s
  if digits = [] then none
  else if digits.all (fun c => 48 ≤ c.toNat ∧ c.toNat ≤ 57) then
    let v := digits.foldl (fun a c => a * 10 + (c.toNat - 48)) 0
    if v < 18446744073709551616 then some v else none
  else none

/-- The wire name of `Headers::ContentLength` from `src/header.rs`. -/
def contentLengthName : List Char := "content-length".data

/-- The body of the closure in `parse`'s header `filter_map` (frame.rs lines
63-89): skip empty lines, split on the first colon (no colon skips the line),
skip empty names, lower-case the name, and apply the four escape
substitutions to the value in the source's order. -/
def decodeHeaderLine (line : List Char) : Option (List Char × List Char) :=
  if line = [] then none
  else
    match splitOnceColon line with
    | none => none
    | some (name, value) =>
      if name = [] then none
      else
        some (toLowerStr name,
          replace2 '\\' '\\' ['\\']
            (replace2 '\\' 'c' [':']
              (replace2 '\\' 'n' ['\n']
                (replace2 '\\' 'r' ['\r'] value))))

/-- The header `filter_map` over the lines of the header region. -/
def decodeHeaderLines : List (List Char) → List (List Char × List Char)
  | [] => []
  | line :: rest =>
    match decodeHeaderLine line with
    | none => decodeHeaderLines rest
    | some p => p :: decodeHeaderLines rest

/-- The `find_map` in frame.rs lines 93-99: the first header named
`content-length` whose value parses as a `usize` (headers whose value fails to
parse are passed over). -/
def findContentLength : List (List Char × List Char) → Option Nat
  | [] => none
  | (n, v) :: rest =>
    match (if n = contentLengthName then parseUsize? v else none) with
    | some x => some x
    | none => findContentLength rest

/-- One decoded scalar step of UTF-8 decoding: if the continuation-byte
conditions `cond` hold, prepend the decoded scalar `c` to the decoding of the
remaining bytes, otherwise fail. -/
def utf8Arm (c : Char) (cond : Bool) (tail : Option (List Char)) : Option (List Char) :=
  if cond then tail.map (fun cs => c :: cs) else none

/-- UTF-8 decoding of a byte list, with exactly Rust `str::from_utf8`'s
validity rules (shortest-form encodings only, no surrogates, max U+10FFFF);
`none` models `Err(Utf8Error)`. -/
def utf8Decode? : List Nat → Option (List Char)
  | [] => some []
  | b0 :: rest =>
    if b0 < 128 then utf8Arm (Char.ofNat b0) true (utf8Decode? rest)
    else if b0 < 194 then none
    else
      match rest with
      | [] => none
      | b1 :: rest1 =>
        if b0 < 224 then
          utf8Arm (Char.ofNat ((b0 - 192) * 64 + (b1 - 128)))
            (decide (128 ≤ b1 ∧ b1 < 192)) (utf8Decode? rest1)
        else
          match rest1 with
          | [] => none
          | b2 :: rest2 =>
            if b0 < 240 then
              utf8Arm (Char.ofNat ((b0 - 224) * 4096 + (b1 - 128) * 64 + (b2 - 128)))
                (decide ((if b0 = 224 then 160 ≤ b1 ∧ b1 < 192
                  else if b0 = 237 then 128 ≤ b1 ∧ b1 < 160
                  else 128 ≤ b1 ∧ b1 < 192) ∧ 128 ≤ b2 ∧ b2 < 192))
                (utf8Decode? rest2)
            else
              match rest2 with
              | [] => none
              | b3 :: rest3 =>
                if b0 < 245 then
                  utf8Arm (Char.ofNat ((b0 - 240) * 262144 + (b1 - 128) * 4096 +
                      (b2 - 128) * 64 + (b3 - 128)))
                    (decide ((if b0 = 240 then 144 ≤ b1 ∧ b1 < 192
                      else if b0 = 244 then 128 ≤ b1 ∧ b1 < 144
                      else 128 ≤ b1 ∧ b1 < 192) ∧
                      (128 ≤ b2 ∧ b2 < 192) ∧ (128 ≤ b3 ∧ b3 < 192)))
                    (utf8Decode? rest3)
                else none

/-- UTF-8 encoding of one scalar (used to turn `create`'s Rust `String` output
into the bytes that reach the decoder). -/
def utf8EncodeChar (c : Char) : List Nat :=
  let n := c.toNat
  if n < 128 then [n]
  else if n < 2048 then [192 + n / 64, 128 + n % 64]
  else if n < 65536 then [224 + n / 4096, 128 + n / 64 % 64, 128 + n % 64]
  else [240 + n / 262144, 128 + n / 4096 % 64, 128 + n / 64 % 64, 128 + n % 64]

/-- UTF-8 encoding of a string. -/
def utf8Encode : List Char → List Nat
  | [] => []
  | c :: r => utf8EncodeChar c ++ utf8Encode r

/-- The `Frame` struct of frame.rs. -/
structure Frame where
  command : List Char
  headers : List (List Char × List Char)
  body : Option (List Char)
deriving DecidableEq

/-- Result of one `parse` call (see the module docstring for the mapping from
the Rust types). -/
inductive ParseResult where
  | needMoreData : ParseResult
  | parsed : Frame → Nat → ParseResult
  | malformed : String → ParseResult
  | panicked : ParseResult
deriving DecidableEq

/-- Rust `buffer.windows(2).position(|bytes| bytes == [b'\n', b'\n'])`: index of the
first adjacent pair of LF bytes. -/
def findSep : List Nat → Option Nat
  | a :: b :: rest =>
    if a = 10 ∧ b = 10 then some 0
    else (findSep (b :: rest)).map (· + 1)
  | _ => none

/-- Rust `buffer.iter().position(|&byte| byte == b'\n')`: index of the first LF. -/
def findNL : List Nat → Option Nat
  | [] => none
  | a :: rest => if a = 10 then some 0 else (findNL rest).map (· + 1)

/-- The part of `parse` (frame.rs lines 43-156) after the initial
two-byte-minimum check; `g` models gzip decompression plus `read_to_string`. -/
def parseCore (g : List Nat → Option (List Char)) (buffer : List Nat) : ParseResult :=
  match findSep buffer with
  | none => ParseResult.needMoreData
  | some sep =>
    match findNL buffer with
    | none => ParseResult.panicked
    | some cmdEnd =>
      match utf8Decode? (buffer.take cmdEnd) with
      | none => ParseResult.malformed "invalid utf-8"
      | some cmdChars =>
        if sep + 1 > buffer.length then ParseResult.needMoreData
        else
          match utf8Decode? ((buffer.take (sep + 1)).drop (cmdEnd + 1)) with
          | none => ParseResult.malformed "invalid utf-8"
          | some hdrChars =>
            match findContentLength (decodeHeaderLines (linesRust hdrChars)) with
            | none =>
              if buffer.length < sep + 1 + 2 then ParseResult.needMoreData
              else
                match idx? buffer (sep + 1 + 1) with
                | none => ParseResult.panicked
                | some t1 =>
                  if t1 ≠ 0 then ParseResult.malformed "Frame not null terminated"
                  else
                    match idx? buffer (sep + 1 + 2) with
                    | none => ParseResult.panicked
                    | some t2 =>
                      if t2 ≠ 10 then
                        ParseResult.malformed "Frame not terminated with a new line"
                      else
                        ParseResult.parsed
                          ⟨trimEnd cmdChars,
                           decodeHeaderLines (linesRust hdrChars), none⟩
                          (sep + 1 + 2)
            | some n =>
              if sep + 1 + 1 + n > buffer.length then ParseResult.needMoreData
              else
                match g ((buffer.take (sep + 1 + 1 + n)).drop (sep + 1 + 1)) with
                | none => ParseResult.malformed "decompression error"
                | some body =>
                  if buffer.length < sep + 1 + 1 + n + 2 then ParseResult.needMoreData
                  else
                    match idx? buffer (sep + 1 + 1 + n) with
                    | none => ParseResult.panicked
                    | some t1 =>
                      if t1 ≠ 0 then ParseResult.malformed "Frame not null terminated"
                      else
                        match idx? buffer (sep + 1 + 1 + n + 1) with
                        | none => ParseResult.panicked
                        | some t2 =>
                          if t2 ≠ 10 then
                            ParseResult.malformed "Frame not terminated with a new line"
                          else
                            ParseResult.parsed
                              ⟨trimEnd cmdChars,
                               decodeHeaderLines (linesRust hdrChars), some body⟩
                              (sep + 1 + 1 + n + 1)

/-- Function `frame::parse` (frame.rs lines 35-156). -/
def parse (g : List Nat → Option (List Char)) (buffer : List Nat) : ParseResult :=
  if buffer.length < 2 then ParseResult.needMoreData else parseCore g buffer

/-- Rust `Vec::join("\n")` over rendered header lines. -/
def joinNL : List (List Char) → List Char
  | [] => []
  | [x] => x
  | x :: y :: r => x ++ '\n' :: joinNL (y :: r)

/-- Function `frame::create` (frame.rs lines 16-32). -/
def create (command : List Char) (headers : Option (List (List Char × List Char)))
    (body : Option (List Char)) : List Char :=
  if headers.isNone then
    command ++ '\n' :: '\n' :: (body.getD []) ++ [Char.ofNat 0]
  else
    let headerLines := joinNL ((headers.getD []).map (fun p => p.1 ++ ':' :: p.2))
    command ++ '\n' :: headerLines ++ '\n' :: '\n' :: (body.getD []) ++ [Char.ofNat 0]

/-- A decompressor that always fails; any concrete `g` works for frames
without a body, since the decoder never invokes `g` on the no-body path. -/
def gNone : List Nat → Option (List Char) := fun _ => none

/-- The byte region of the header lines of a wire frame: each line followed by
its terminating LF. -/
def hdrFlat : List (List Nat) → List Nat
  | [] => []
  | l :: ls => l ++ [10] ++ hdrFlat ls

/-- Wire bytes of a frame with no body: COMMAND, LF, header lines (each ending
in LF), the empty separator line's LF, then NUL and LF. -/
def noBodyWire (cmd : List Nat) (lines : List (List Nat)) : List Nat :=
  cmd ++ [10] ++ hdrFlat lines ++ [10, 0, 10]

/-- One result of `TcpStream::read` in `receive_bytes` (lib.rs line 136): a
chunk of bytes (the empty chunk is a zero-length read, i.e. end of stream) or
an I/O error. -/
inductive ReadEvent where
  | chunk : List Nat → ReadEvent
  | ioError : String → ReadEvent
deriving DecidableEq

/-- A message sent on the `frame_sender` channel
(`Sender<Result<Frame, String>>`). -/
inductive Msg where
  | ok : Frame → Msg
  | err : String → Msg
deriving DecidableEq

/-- How the receive thread finished: `cleanExit` is `receive_bytes` returning
`Ok(())` on a zero-length read, `errorStop` is the `open` closure sending the
one `Err` after `receive_bytes` returned `Err`, `panicStop` is the thread
dying in a panic, and `starved` means the modelled event list ran out while
the loop would block in `read`. -/
inductive Stop where
  | cleanExit : Stop
  | errorStop : Stop
  | panicStop : Stop
  | starved : Stop
deriving DecidableEq

/-- Result of the inner `while let Some(..) = frame::parse(..)` loop (lib.rs
lines 145-148): the frames drained so far, plus how the loop left off. -/
inductive DrainOut where
  | more : List Frame → List Nat → DrainOut
  | failed : List Frame → String → DrainOut
  | panicStop : List Frame → DrainOut
deriving DecidableEq

/-- The inner drain loop of `receive_bytes`: repeatedly parse the pending
data, removing `end_position + 1` bytes and emitting the frame on success;
stop on `NeedMoreData` (keeping the remainder), on a parse error (which `?`
propagates), or on a panic. -/
def drainFrames (g : List Nat → Option (List Char)) (pending : List Nat) : DrainOut :=
  match h : parse g pending with
  | ParseResult.needMoreData => DrainOut.more [] pending
  | ParseResult.malformed m => DrainOut.failed [] m
  | ParseResult.panicked => DrainOut.panicStop []
  | ParseResult.parsed f endPos =>
    match drainFrames g (pending.drop (endPos + 1)) with
    | DrainOut.more fs rem => DrainOut.more (f :: fs) rem
    | DrainOut.failed fs m => DrainOut.failed (f :: fs) m
    | DrainOut.panicStop fs => DrainOut.panicStop (f :: fs)
termination_by pending.length
decreasing_by
  simp only [List.length_drop]
  have h2 : 2 ≤ pending.length := by
    by_contra hlt
    push_neg at hlt
    unfold parse at h
    rw [if_pos hlt] at h
    exact absurd h (by simp)
  omega

/-- Function `receive_bytes` (lib.rs lines 127-150) together with the error forwarding
in `open`'s thread closure (lib.rs lines 107-115), driven by a list of read
events; returns the messages sent on the channel and how the thread
finished. -/
def runReceive (g : List Nat → Option (List Char)) :
    List ReadEvent → List Nat → List Msg × Stop
  | [], _ => ([], Stop.starved)
  | ReadEvent.ioError m :: _, _ => ([Msg.err m], Stop.errorStop)
  | ReadEvent.chunk c :: rest, pending =>
    if c = [] then ([], Stop.cleanExit)
    else
      match drainFrames g (pending ++ c) with
      | DrainOut.more fs rem =>
        let next := runReceive g rest rem
        (fs.map Msg.ok ++ next.1, next.2)
      | DrainOut.failed fs m => (fs.map Msg.ok ++ [Msg.err m], Stop.errorStop)
      | DrainOut.panicStop fs => (fs.map Msg.ok, Stop.panicStop)

/-! ### Helper lemmas about the indexing and searching primitives -/

theorem idx?_append_left {α : Type} (xs ys : List α) (k : Nat) (h : k < xs.length) :
    idx? (xs ++ ys) k = idx? xs k := by
  induction xs generalizing k with
  | nil => simp at h
  | cons a t ih =>
    cases k with
    | zero => rfl
    | succ n =>
      simp only [List.cons_append, idx?]
      exact ih n (by simpa using h)

theorem idx?_append_right {α : Type} (xs ys : List α) (k : Nat) :
    idx? (xs ++ ys) (xs.length + k) = idx? ys k := by
  induction xs with
  | nil => simp
  | cons a t ih =>
    simpa [List.cons_append, idx?, Nat.succ_add] using ih

theorem idx?_len_le {α : Type} (xs : List α) (k : Nat) (h : xs.length ≤ k) :
    idx? xs k = none := by
  induction xs generalizing k with
  | nil => rfl
  | cons a t ih =>
    cases k with
    | zero => simp at h
    | succ n => exact ih n (by simpa using h)

theorem findNL_bound (l : List Nat) (i : Nat) (h : findNL l = some i) : i < l.length := by
  induction l generalizing i with
  | nil => simp [findNL] at h
  | cons a t ih =>
    by_cases ha : a = 10
    · simp [findNL, ha] at h
      simp
      omega
    · simp only [findNL, if_neg ha, Option.map_eq_some'] at h
      obtain ⟨j, hj, rfl⟩ := h
      have := ih j hj
      simp
      omega

theorem findNL_append (l t : List Nat) (i : Nat) (h : findNL l = some i) :
    findNL (l ++ t) = some i := by
  induction l generalizing i with
  | nil => simp [findNL] at h
  | cons a r ih =>
    by_cases ha : a = 10
    · simp [findNL, ha] at h ⊢
      omega
    · simp only [findNL, if_neg ha, Option.map_eq_some'] at h
      obtain ⟨j, hj, rfl⟩ := h
      simp [findNL, if_neg ha, ih j hj]

theorem findNL_pre (pre rest : List Nat) (h : 10 ∉ pre) :
    findNL (pre ++ 10 :: rest) = some pre.length := by
  induction pre with
  | nil => simp [findNL]
  | cons a t ih =>
    have ha : a ≠ 10 := fun hh => h (by simp [hh])
    have ht : 10 ∉ t := fun hh => h (by simp [hh])
    simp [findNL, ha, ih ht]

theorem findSep_bound (l : List Nat) (s : Nat) (h : findSep l = some s) :
    s + 2 ≤ l.length := by
  induction l generalizing s with
  | nil => simp [findSep] at h
  | cons a t ih =>
    cases t with
    | nil => simp [findSep] at h
    | cons b r =>
      by_cases hab : a = 10 ∧ b = 10
      · simp [findSep, hab] at h
        simp
        omega
      · simp only [findSep, if_neg hab, Option.map_eq_some'] at h
        obtain ⟨j, hj, rfl⟩ := h
        have := ih j hj
        simp at this ⊢
        omega

theorem findSep_append (l t : List Nat) (s : Nat) (h : findSep l = some s) :
    findSep (l ++ t) = some s := by
  induction l generalizing s with
  | nil => simp [findSep] at h
  | cons a r ih =>
    cases r with
    | nil => simp [findSep] at h
    | cons b rr =>
      by_cases hab : a = 10 ∧ b = 10
      · simp [findSep, hab] at h ⊢
        omega
      · simp only [findSep, if_neg hab, Option.map_eq_some'] at h
        obtain ⟨j, hj, rfl⟩ := h
        simp only [List.cons_append, findSep, if_neg hab]
        have := ih j hj
        simp only [List.cons_append] at this
        simp [this]

theorem findSep_take (l : List Nat) (s k : Nat) (h : findSep l = some s) (hk : k ≤ s + 1) :
    findSep (l.take k) = none := by
  induction l generalizing s k with
  | nil => simp [findSep] at h
  | cons a t ih =>
    cases t with
    | nil => simp [findSep] at h
    | cons b r =>
      by_cases hab : a = 10 ∧ b = 10
      · simp only [findSep, if_pos hab] at h
        have hs : s = 0 := by simpa using h.symm
        subst hs
        interval_cases k
        · rfl
        · rfl
      · simp only [findSep, if_neg hab, Option.map_eq_some'] at h
        obtain ⟨j, hj, rfl⟩ := h
        cases k with
        | zero => rfl
        | succ n =>
          have hn : n ≤ j + 1 := by omega
          have hnone := ih j n hj hn
          have hstep : (a :: b :: r).take (n + 1) = a :: (b :: r).take n := by
            simp [List.take]
          rw [hstep]
          cases hcase : (b :: r).take n with
          | nil => simp [hcase, findSep]
          | cons y ys =>
            have hy : y = b := by
              cases n with
              | zero => simp at hcase
              | succ m =>
                simp [List.take] at hcase
                exact hcase.1.symm
            rw [hy] at hcase
            have hbys : findSep (b :: ys) = none := by
              rw [← hcase]
              exact hnone
            rw [hy]
            simp [findSep, if_neg hab, hbys]

theorem findSep_cons2_none (a b : Nat) (r : List Nat) :
    findSep (a :: b :: r) = none ↔ ¬(a = 10 ∧ b = 10) ∧ findSep (b :: r) = none := by
  by_cases h : a = 10 ∧ b = 10
  · simp [findSep, h]
  · simp [findSep, h, Option.map_eq_none']

theorem findSep_none_of_no10 (l : List Nat) (h : 10 ∉ l) : findSep l = none := by
  induction l with
  | nil => rfl
  | cons a t ih =>
    cases t with
    | nil => rfl
    | cons b r =>
      rw [findSep_cons2_none]
      refine ⟨fun hh => h (by simp [hh.1]), ih (fun hh => h (by simp [hh]))⟩

theorem findSep_append_none (xs ys : List Nat) (hxs : findSep xs = none)
    (hys : findSep ys = none)
    (hbd : ∀ x y, xs.getLast? = some x → ys.head? = some y → ¬(x = 10 ∧ y = 10)) :
    findSep (xs ++ ys) = none := by
  induction xs with
  | nil => simpa using hys
  | cons a t ih =>
    cases t with
    | nil =>
      cases ys with
      | nil => rfl
      | cons y r =>
        show findSep (a :: y :: r) = none
        rw [findSep_cons2_none]
        exact ⟨hbd a y rfl rfl, hys⟩
    | cons b r =>
      have hsplit := (findSep_cons2_none a b r).mp hxs
      show findSep (a :: b :: (r ++ ys)) = none
      rw [findSep_cons2_none]
      refine ⟨hsplit.1, ?_⟩
      have hb : findSep ((b :: r) ++ ys) = none := by
        refine ih hsplit.2 (fun x y hx hy => hbd x y ?_ hy)
        rw [List.getLast?_cons_cons]
        exact hx
      simpa using hb

theorem flat_head_ne10 (lines : List (List Nat)) (hl : ∀ l ∈ lines, l ≠ [] ∧ 10 ∉ l)
    (y : Nat) (hy : (hdrFlat lines).head? = some y) : y ≠ 10 := by
  cases lines with
  | nil => simp [hdrFlat] at hy
  | cons l ls =>
    have hline := hl l (by simp)
    cases l with
    | nil => exact absurd rfl hline.1
    | cons x xs =>
      have hxy : y = x := by
        simp [hdrFlat] at hy
        omega
      subst hxy
      exact fun hh => hline.2 (by simp [hh])

theorem flat_none (lines : List (List Nat)) (hl : ∀ l ∈ lines, l ≠ [] ∧ 10 ∉ l) :
    findSep (hdrFlat lines) = none := by
  induction lines with
  | nil => rfl
  | cons l ls ih =>
    have hline := hl l (by simp)
    have hrest : ∀ x ∈ ls, x ≠ [] ∧ 10 ∉ x := fun x hx => hl x (by simp [hx])
    have hnlflat : findSep (10 :: hdrFlat ls) = none := by
      cases hflat : hdrFlat ls with
      | nil => rfl
      | cons z zs =>
        rw [findSep_cons2_none]
        refine ⟨fun hh => ?_, by rw [← hflat]; exact ih hrest⟩
        exact flat_head_ne10 ls hrest z (by rw [hflat]; rfl) hh.2
    have hshape : hdrFlat (l :: ls) = l ++ (10 :: hdrFlat ls) := by
      simp [hdrFlat]
    rw [hshape]
    refine findSep_append_none l (10 :: hdrFlat ls)
      (findSep_none_of_no10 l hline.2) hnlflat ?_
    intro x y hx hy
    have hx10 : x ≠ 10 := fun hh =>
      hline.2 (hh ▸ List.mem_of_mem_getLast? hx)
    exact fun hh => hx10 hh.1

theorem mid_none (cmd : List Nat) (lines : List (List Nat)) (hc : 10 ∉ cmd)
    (hl : ∀ l ∈ lines, l ≠ [] ∧ 10 ∉ l) :
    findSep (cmd ++ [10] ++ hdrFlat lines) = none := by
  have hnlflat : findSep (10 :: hdrFlat lines) = none := by
    cases hflat : hdrFlat lines with
    | nil => rfl
    | cons z zs =>
      rw [findSep_cons2_none]
      refine ⟨fun hh => ?_, by rw [← hflat]; exact flat_none lines hl⟩
      exact flat_head_ne10 lines hl z (by rw [hflat]; rfl) hh.2
  rw [List.append_assoc]
  refine findSep_append_none cmd ([10] ++ hdrFlat lines)
    (findSep_none_of_no10 cmd hc) (by simpa using hnlflat) ?_
  intro x y hx hy
  have hx10 : x ≠ 10 := fun hh => hc (hh ▸ List.mem_of_mem_getLast? hx)
  exact fun hh => hx10 hh.1

theorem getLast_flat (lines : List (List Nat)) (pre : List Nat) :
    (pre ++ [10] ++ hdrFlat lines).getLast? = some 10 := by
  induction lines generalizing pre with
  | nil => simp [hdrFlat]
  | cons l ls ih =>
    have := ih (pre ++ [10] ++ l)
    simp only [hdrFlat]
    simp only [List.append_assoc] at this ⊢
    exact this

theorem findSep_mid (mid : List Nat) (ys : List Nat) (hnone : findSep mid = none)
    (hlast : mid.getLast? = some 10) :
    findSep (mid ++ 10 :: ys) = some (mid.length - 1) := by
  induction mid with
  | nil => simp at hlast
  | cons x m ih =>
    cases m with
    | nil =>
      have hx : x = 10 := by simpa using hlast
      subst hx
      simp [findSep]
    | cons y r =>
      have hsplit := (findSep_cons2_none x y r).mp hnone
      have hlast' : (y :: r).getLast? = some 10 := by
        rw [← List.getLast?_cons_cons]
        exact hlast
      have htail := ih hsplit.2 hlast'
      show findSep (x :: y :: (r ++ 10 :: ys)) = some ((x :: y :: r).length - 1)
      have hni : ¬(x = 10 ∧ y = 10) := hsplit.1
      simp only [findSep, if_neg hni]
      have hys : y :: (r ++ 10 :: ys) = (y :: r) ++ 10 :: ys := rfl
      rw [hys, htail]
      simp
      try omega

theorem findSep_noBodyWire (cmd : List Nat) (lines : List (List Nat))
    (hc : 10 ∉ cmd) (hl : ∀ l ∈ lines, l ≠ [] ∧ 10 ∉ l) :
    findSep (noBodyWire cmd lines) = some (cmd.length + (hdrFlat lines).length) := by
  have h := findSep_mid (cmd ++ [10] ++ hdrFlat lines) [0, 10]
    (mid_none cmd lines hc hl) (getLast_flat lines cmd)
  have hshape : noBodyWire cmd lines = (cmd ++ [10] ++ hdrFlat lines) ++ 10 :: [0, 10] := by
    simp [noBodyWire]
  rw [hshape, h]
  simp
  try omega

/-- Master lemma: `parse` on a structurally valid no-body wire frame takes the
no-body branch and consumes through the final LF (returning the index of that
LF, `length - 1`). -/
theorem parse_noBody (g : List Nat → Option (List Char)) (cmd : List Nat)
    (lines : List (List Nat)) (cmdC hdrC : List Char)
    (hc : 10 ∉ cmd) (hl : ∀ l ∈ lines, l ≠ [] ∧ 10 ∉ l)
    (hdc : utf8Decode? cmd = some cmdC)
    (hdh : utf8Decode? (hdrFlat lines) = some hdrC)
    (hcl : findContentLength (decodeHeaderLines (linesRust hdrC)) = none) :
    parse g (noBodyWire cmd lines) =
      ParseResult.parsed ⟨trimEnd cmdC, decodeHeaderLines (linesRust hdrC), none⟩
        (cmd.length + (hdrFlat lines).length + 3) := by
  have hlen : (noBodyWire cmd lines).length =
      cmd.length + (hdrFlat lines).length + 4 := by
    simp [noBodyWire]
    try omega
  have hsep := findSep_noBodyWire cmd lines hc hl
  have hnl : findNL (noBodyWire cmd lines) = some cmd.length := by
    have hshape : noBodyWire cmd lines = cmd ++ 10 :: (hdrFlat lines ++ [10, 0, 10]) := by
      simp [noBodyWire]
    rw [hshape]
    exact findNL_pre cmd _ hc
  have htake : (noBodyWire cmd lines).take cmd.length = cmd := by
    have hshape : noBodyWire cmd lines = cmd ++ ([10] ++ hdrFlat lines ++ [10, 0, 10]) := by
      simp [noBodyWire]
    rw [hshape]
    exact List.take_left cmd _
  have hregion : ((noBodyWire cmd lines).take
      (cmd.length + (hdrFlat lines).length + 1)).drop (cmd.length + 1) = hdrFlat lines := by
    have hshape : noBodyWire cmd lines = (cmd ++ [10] ++ hdrFlat lines) ++ [10, 0, 10] := by
      simp [noBodyWire]
    have hidx : cmd.length + (hdrFlat lines).length + 1 =
        (cmd ++ [10] ++ hdrFlat lines).length := by
      simp
      try omega
    rw [hshape, hidx, List.take_left]
    have hshape2 : cmd ++ [10] ++ hdrFlat lines = (cmd ++ [10]) ++ hdrFlat lines := rfl
    have hidx2 : cmd.length + 1 = (cmd ++ [10]).length := by simp
    rw [hshape2, hidx2]
    exact List.drop_left _ _
  have hidxNul : idx? (noBodyWire cmd lines)
      (cmd.length + (hdrFlat lines).length + 1 + 1) = some 0 := by
    have hshape : noBodyWire cmd lines = (cmd ++ [10] ++ hdrFlat lines) ++ [10, 0, 10] := by
      simp [noBodyWire]
    have hidx : cmd.length + (hdrFlat lines).length + 1 + 1 =
        (cmd ++ [10] ++ hdrFlat lines).length + 1 := by
      simp
      try omega
    rw [hshape, hidx, idx?_append_right]
    rfl
  have hidxLF : idx? (noBodyWire cmd lines)
      (cmd.length + (hdrFlat lines).length + 1 + 2) = some 10 := by
    have hshape : noBodyWire cmd lines = (cmd ++ [10] ++ hdrFlat lines) ++ [10, 0, 10] := by
      simp [noBodyWire]
    have hidx : cmd.length + (hdrFlat lines).length + 1 + 2 =
        (cmd ++ [10] ++ hdrFlat lines).length + 2 := by
      simp
      try omega
    rw [hshape, hidx, idx?_append_right]
    rfl
  have h2 : ¬ ((noBodyWire cmd lines).length < 2) := by omega
  have hgt : ¬ (cmd.length + (hdrFlat lines).length + 1 > (noBodyWire cmd lines).length) := by
    omega
  have hlt : ¬ ((noBodyWire cmd lines).length < cmd.length + (hdrFlat lines).length + 1 + 2) := by
    omega
  unfold parse parseCore
  rw [if_neg h2]
  simp only [hsep, hnl, htake, hdc, hregion, hdh, hcl, hidxNul, hidxLF, hgt, hlt]
  simp only [gt_iff_lt, if_false, ite_false, reduceIte]
  simp

/-- Master lemma, prefix side: any prefix of a valid no-body wire frame that
stops strictly before the terminating NUL byte makes `parse` wait for more
data. -/
theorem parse_noBody_take (g : List Nat → Option (List Char)) (cmd : List Nat)
    (lines : List (List Nat))
    (hc : 10 ∉ cmd) (hl : ∀ l ∈ lines, l ≠ [] ∧ 10 ∉ l) (k : Nat)
    (hk : k < cmd.length + (hdrFlat lines).length + 2) :
    parse g ((noBodyWire cmd lines).take k) = ParseResult.needMoreData := by
  have hlen : (noBodyWire cmd lines).length =
      cmd.length + (hdrFlat lines).length + 4 := by
    simp [noBodyWire]
    try omega
  by_cases h2 : k < 2
  · have hshort : ((noBodyWire cmd lines).take k).length < 2 := by
      have := List.length_take k (noBodyWire cmd lines)
      omega
    unfold parse
    rw [if_pos hshort]
  · have hsep := findSep_noBodyWire cmd lines hc hl
    have hnone := findSep_take (noBodyWire cmd lines) _ k hsep (by omega)
    have hlen2 : ¬ (((noBodyWire cmd lines).take k).length < 2) := by
      have := List.length_take k (noBodyWire cmd lines)
      omega
    unfold parse parseCore
    rw [if_neg hlen2]
    simp only [hnone]

/-! ### UTF-8, lines, trim and content-length lemmas -/

theorem utf8Arm_some_inv (c : Char) (cond : Bool) (t : Option (List Char))
    (A : List Char) (h : utf8Arm c cond t = some A) :
    cond = true ∧ ∃ cs, t = some cs ∧ A = c :: cs := by
  cases cond with
  | false => simp [utf8Arm] at h
  | true =>
    cases t with
    | none => simp [utf8Arm] at h
    | some cs =>
      simp [utf8Arm] at h
      exact ⟨rfl, cs, rfl, h.symm⟩

theorem utf8Arm_some (c : Char) (cond : Bool) (cs : List Char) (h : cond = true) :
    utf8Arm c cond (some cs) = some (c :: cs) := by
  simp [utf8Arm, h]

theorem utf8_ascii (l : List Nat) (h : ∀ x ∈ l, x < 128) :
    utf8Decode? l = some (l.map Char.ofNat) := by
  induction l with
  | nil => rfl
  | cons a t ih =>
    have ha : a < 128 := h a (by simp)
    have ht : ∀ x ∈ t, x < 128 := fun x hx => h x (by simp [hx])
    rw [utf8Decode?.eq_def]
    simp only [List.map_cons]
    simp [ha, ih ht, utf8Arm]

theorem utf8_append (a : List Nat) (A : List Char) (b : List Nat) (B : List Char)
    (ha : utf8Decode? a = some A) (hb : utf8Decode? b = some B) :
    utf8Decode? (a ++ b) = some (A ++ B) := by
  induction a using utf8Decode?.induct generalizing A with
  | case1 =>
    rw [utf8Decode?.eq_def] at ha
    have hA : A = [] := by simpa using ha.symm
    subst hA
    simpa using hb
  | case2 b0 rest h0 ih =>
    rw [utf8Decode?.eq_def] at ha
    simp only [if_pos h0] at ha
    obtain ⟨-, cs, hcs, hA⟩ := utf8Arm_some_inv _ _ _ _ ha
    subst hA
    rw [List.cons_append, utf8Decode?.eq_def]
    simp only [if_pos h0]
    rw [ih cs hcs]
    simp [utf8Arm]
  | case3 b0 rest h0 h1 =>
    rw [utf8Decode?.eq_def] at ha
    simp [h0, h1] at ha
  | case4 b0 h0 h1 =>
    rw [utf8Decode?.eq_def] at ha
    simp [h0, h1] at ha
  | case5 b0 h0 h1 b1 rest1 h2 ih =>
    rw [utf8Decode?.eq_def] at ha
    simp only [if_neg h0, if_neg h1, if_pos h2] at ha
    obtain ⟨hcond, cs, hcs, hA⟩ := utf8Arm_some_inv _ _ _ _ ha
    subst hA
    rw [List.cons_append, List.cons_append, utf8Decode?.eq_def]
    simp only [if_neg h0, if_neg h1, if_pos h2]
    rw [ih cs hcs]
    rw [utf8Arm_some _ _ _ hcond]
    simp
  | case6 b0 h0 h1 b1 h2 =>
    rw [utf8Decode?.eq_def] at ha
    simp [h0, h1, h2] at ha
  | case7 b0 h0 h1 b1 h2 b2 rest2 h3 ih =>
    rw [utf8Decode?.eq_def] at ha
    simp only [if_neg h0, if_neg h1, if_neg h2, if_pos h3] at ha
    obtain ⟨hcond, cs, hcs, hA⟩ := utf8Arm_some_inv _ _ _ _ ha
    subst hA
    rw [List.cons_append, List.cons_append, List.cons_append, utf8Decode?.eq_def]
    simp only [if_neg h0, if_neg h1, if_neg h2, if_pos h3]
    rw [ih cs hcs]
    rw [utf8Arm_some _ _ _ hcond]
    simp
  | case8 b0 h0 h1 b1 h2 b2 h3 =>
    rw [utf8Decode?.eq_def] at ha
    simp [h0, h1, h2, h3] at ha
  | case9 b0 h0 h1 b1 h2 b2 h3 b3 rest3 h4 ih =>
    rw [utf8Decode?.eq_def] at ha
    simp only [if_neg h0, if_neg h1, if_neg h2, if_neg h3, if_pos h4] at ha
    obtain ⟨hcond, cs, hcs, hA⟩ := utf8Arm_some_inv _ _ _ _ ha
    subst hA
    rw [List.cons_append, List.cons_append, List.cons_append, List.cons_append,
      utf8Decode?.eq_def]
    simp only [if_neg h0, if_neg h1, if_neg h2, if_neg h3, if_pos h4]
    rw [ih cs hcs]
    rw [utf8Arm_some _ _ _ hcond]
    simp
  | case10 b0 h0 h1 b1 h2 b2 h3 b3 rest3 h4 =>
    rw [utf8Decode?.eq_def] at ha
    simp [h0, h1, h2, h3, h4] at ha

theorem dropWhile_all {α : Type} (p : α → Bool) (as bs : List α)
    (h : ∀ a ∈ as, p a = true) : (as ++ bs).dropWhile p = bs.dropWhile p := by
  induction as with
  | nil => rfl
  | cons a t ih =>
    simp only [List.cons_append, List.dropWhile, h a (by simp)]
    exact ih (fun x hx => h x (by simp [hx]))

theorem trimEnd_append_ws (s t : List Char) (ht : ∀ c ∈ t, isRustWhitespace c = true) :
    trimEnd (s ++ t) = trimEnd s := by
  unfold trimEnd
  rw [List.reverse_append]
  rw [dropWhile_all isRustWhitespace t.reverse s.reverse
    (fun c hc => ht c (by simpa using hc))]

theorem splitInclusiveNL_single (l : List Char) (h : '\n' ∉ l) :
    splitInclusiveNL (l ++ ['\n']) = [l ++ ['\n']] := by
  induction l with
  | nil => rfl
  | cons c t ih =>
    have hc : c ≠ '\n' := fun hh => h (by simp [hh])
    have ht : '\n' ∉ t := fun hh => h (by simp [hh])
    have step : splitInclusiveNL (c :: (t ++ ['\n'])) =
        match splitInclusiveNL (t ++ ['\n']) with
        | [] => [[c]]
        | p :: ps => (c :: p) :: ps := by
      rw [splitInclusiveNL.eq_def]
      simp [hc]
    rw [List.cons_append, step, ih ht]

theorem lineMap_concat_nl (l : List Char) (h : l.getLast? ≠ some '\x0d') :
    lineMap (l ++ ['\n']) = l := by
  unfold lineMap
  simp [h]

theorem linesRust_single (l : List Char) (hnl : '\n' ∉ l) (hcr : l.getLast? ≠ some '\x0d') :
    linesRust (l ++ ['\n']) = [l] := by
  simp [linesRust, splitInclusiveNL_single l hnl, lineMap_concat_nl l hcr]

theorem findContentLength_none (hs : List (List Char × List Char))
    (h : ∀ p ∈ hs, p.1 = contentLengthName → parseUsize? p.2 = none) :
    findContentLength hs = none := by
  induction hs with
  | nil => rfl
  | cons p rest ih =>
    obtain ⟨n, v⟩ := p
    have hrest := ih (fun q hq => h q (by simp [hq]))
    by_cases hn : n = contentLengthName
    · have := h (n, v) (by simp) hn
      simp [findContentLength, hn, this, hrest]
    · simp [findContentLength, hn, hrest]

/-! ### Step lemmas for the drain loop -/

theorem drainFrames_eq_needMore (g : List Nat → Option (List Char)) (p : List Nat)
    (h : parse g p = ParseResult.needMoreData) : drainFrames g p = DrainOut.more [] p := by
  unfold drainFrames
  split <;> simp_all

theorem drainFrames_eq_malformed (g : List Nat → Option (List Char)) (p : List Nat)
    (m : String) (h : parse g p = ParseResult.malformed m) :
    drainFrames g p = DrainOut.failed [] m := by
  unfold drainFrames
  split <;> simp_all

theorem drainFrames_eq_panicked (g : List Nat → Option (List Char)) (p : List Nat)
    (h : parse g p = ParseResult.panicked) : drainFrames g p = DrainOut.panicStop [] := by
  unfold drainFrames
  split <;> simp_all

theorem drainFrames_eq_parsed (g : List Nat → Option (List Char)) (p : List Nat)
    (f : Frame) (e : Nat) (h : parse g p = ParseResult.parsed f e) :
    drainFrames g p =
      match drainFrames g (p.drop (e + 1)) with
      | DrainOut.more fs rem => DrainOut.more (f :: fs) rem
      | DrainOut.failed fs m => DrainOut.failed (f :: fs) m
      | DrainOut.panicStop fs => DrainOut.panicStop (f :: fs) := by
  conv_lhs => rw [drainFrames]
  split <;> simp_all

/-- If `parse` extracts a frame from `b1` consuming exactly all of `b1`
(returned index `e` with `e + 1 = b1.length`, as the receive loop's
`drain(..end_position + 1)` does), then parsing `b1 ++ b2` yields the same
frame and the same index: the first frame's byte span is unaffected by
whatever follows it. -/
theorem parse_append_stable (g : List Nat → Option (List Char)) (b1 b2 : List Nat)
    (f : Frame) (e : Nat) (he : e + 1 = b1.length)
    (h : parse g b1 = ParseResult.parsed f e) :
    parse g (b1 ++ b2) = ParseResult.parsed f e := by
  unfold parse at h
  by_cases h2 : b1.length < 2
  · rw [if_pos h2] at h
    exact absurd h (by simp)
  rw [if_neg h2] at h
  unfold parseCore at h
  cases hsep : findSep b1 with
  | none => simp only [hsep] at h; exact absurd h (by simp)
  | some sep =>
  simp only [hsep] at h
  cases hnl : findNL b1 with
  | none => simp only [hnl] at h; exact absurd h (by simp)
  | some cmdEnd =>
  simp only [hnl] at h
  cases hdc : utf8Decode? (b1.take cmdEnd) with
  | none => simp only [hdc] at h; exact absurd h (by simp)
  | some cmdC =>
  simp only [hdc] at h
  by_cases hgt : sep + 1 > b1.length
  · rw [if_pos hgt] at h
    exact absurd h (by simp)
  rw [if_neg hgt] at h
  cases hdh : utf8Decode? ((b1.take (sep + 1)).drop (cmdEnd + 1)) with
  | none => simp only [hdh] at h; exact absurd h (by simp)
  | some hdrC =>
  simp only [hdh] at h
  have hb1 := findNL_bound b1 cmdEnd hnl
  have hsb := findSep_bound b1 sep hsep
  cases hcl : findContentLength (decodeHeaderLines (linesRust hdrC)) with
  | none =>
    simp only [hcl] at h
    by_cases hlt : b1.length < sep + 1 + 2
    · rw [if_pos hlt] at h
      exact absurd h (by simp)
    rw [if_neg hlt] at h
    cases ht1 : idx? b1 (sep + 1 + 1) with
    | none => simp only [ht1] at h; exact absurd h (by simp)
    | some t1 =>
    simp only [ht1] at h
    by_cases ht1v : t1 ≠ 0
    · rw [if_pos ht1v] at h
      exact absurd h (by simp)
    rw [if_neg ht1v] at h
    push_neg at ht1v
    cases ht2 : idx? b1 (sep + 1 + 2) with
    | none => simp only [ht2] at h; exact absurd h (by simp)
    | some t2 =>
    simp only [ht2] at h
    by_cases ht2v : t2 ≠ 10
    · rw [if_pos ht2v] at h
      exact absurd h (by simp)
    rw [if_neg ht2v] at h
    push_neg at ht2v
    injection h with hX he2
    have e1 : findSep (b1 ++ b2) = some sep := findSep_append _ _ _ hsep
    have e2 : findNL (b1 ++ b2) = some cmdEnd := findNL_append _ _ _ hnl
    have e3 : (b1 ++ b2).take cmdEnd = b1.take cmdEnd :=
      List.take_append_of_le_length (by omega)
    have e4 : (b1 ++ b2).take (sep + 1) = b1.take (sep + 1) :=
      List.take_append_of_le_length (by omega)
    have e5 : idx? (b1 ++ b2) (sep + 1 + 1) = some 0 := by
      rw [idx?_append_left _ _ _ (by omega), ht1, ht1v]
    have e6 : idx? (b1 ++ b2) (sep + 1 + 2) = some 10 := by
      have hlen : sep + 1 + 2 < b1.length := by omega
      rw [idx?_append_left _ _ _ hlen, ht2, ht2v]
    have e7 : ¬ ((b1 ++ b2).length < 2) := by
      simp
      omega
    have e8 : ¬ (sep + 1 > (b1 ++ b2).length) := by
      simp
      omega
    have e9 : ¬ ((b1 ++ b2).length < sep + 1 + 2) := by
      simp
      omega
    unfold parse parseCore
    rw [if_neg e7]
    simp only [e1, e2, e3, hdc, e8, e4, hdh, hcl, e9, e5, e6, gt_iff_lt,
      if_false, ite_false, reduceIte]
    simp [hX, he2]
  | some n =>
    simp only [hcl] at h
    by_cases hbl : sep + 1 + 1 + n > b1.length
    · rw [if_pos hbl] at h
      exact absurd h (by simp)
    rw [if_neg hbl] at h
    cases hg : g ((b1.take (sep + 1 + 1 + n)).drop (sep + 1 + 1)) with
    | none => simp only [hg] at h; exact absurd h (by simp)
    | some body =>
    simp only [hg] at h
    by_cases hlt : b1.length < sep + 1 + 1 + n + 2
    · rw [if_pos hlt] at h
      exact absurd h (by simp)
    rw [if_neg hlt] at h
    cases ht1 : idx? b1 (sep + 1 + 1 + n) with
    | none => simp only [ht1] at h; exact absurd h (by simp)
    | some t1 =>
    simp only [ht1] at h
    by_cases ht1v : t1 ≠ 0
    · rw [if_pos ht1v] at h
      exact absurd h (by simp)
    rw [if_neg ht1v] at h
    push_neg at ht1v
    cases ht2 : idx? b1 (sep + 1 + 1 + n + 1) with
    | none => simp only [ht2] at h; exact absurd h (by simp)
    | some t2 =>
    simp only [ht2] at h
    by_cases ht2v : t2 ≠ 10
    · rw [if_pos ht2v] at h
      exact absurd h (by simp)
    rw [if_neg ht2v] at h
    push_neg at ht2v
    injection h with hX he2
    have e1 : findSep (b1 ++ b2) = some sep := findSep_append _ _ _ hsep
    have e2 : findNL (b1 ++ b2) = some cmdEnd := findNL_append _ _ _ hnl
    have e3 : (b1 ++ b2).take cmdEnd = b1.take cmdEnd :=
      List.take_append_of_le_length (by omega)
    have e4 : (b1 ++ b2).take (sep + 1) = b1.take (sep + 1) :=
      List.take_append_of_le_length (by omega)
    have e4b : (b1 ++ b2).take (sep + 1 + 1 + n) = b1.take (sep + 1 + 1 + n) :=
      List.take_append_of_le_length (by omega)
    have e5 : idx? (b1 ++ b2) (sep + 1 + 1 + n) = some 0 := by
      rw [idx?_append_left _ _ _ (by omega), ht1, ht1v]
    have e6 : idx? (b1 ++ b2) (sep + 1 + 1 + n + 1) = some 10 := by
      rw [idx?_append_left _ _ _ (by omega), ht2, ht2v]
    have e7 : ¬ ((b1 ++ b2).length < 2) := by
      simp
      omega
    have e8 : ¬ (sep + 1 > (b1 ++ b2).length) := by
      simp
      omega
    have e9 : ¬ (sep + 1 + 1 + n > (b1 ++ b2).length) := by
      simp
      omega
    have e10 : ¬ ((b1 ++ b2).length < sep + 1 + 1 + n + 2) := by
      simp
      omega
    unfold parse parseCore
    rw [if_neg e7]
    simp only [e1, e2, e3, hdc, e8, e4, hdh, hcl, e9, e4b, hg, e10, e5, e6,
      gt_iff_lt, if_false, ite_false, reduceIte]
    simp [hX, he2]

/-- Shape invariant of the receive loop's channel traffic: parsed frames are
sent as `Ok` messages in order; the loop sends an `Err` message exactly when
it stops with `errorStop` (a read error or a parse failure), and that `Err`
is the final message. -/
theorem runReceive_shape (g : List Nat → Option (List Char)) (events : List ReadEvent) :
    ∀ pending : List Nat,
      ((runReceive g events pending).2 = Stop.errorStop →
        ∃ (fs : List Frame) (m : String),
          (runReceive g events pending).1 = fs.map Msg.ok ++ [Msg.err m]) ∧
      ((runReceive g events pending).2 ≠ Stop.errorStop →
        ∃ fs : List Frame, (runReceive g events pending).1 = fs.map Msg.ok) := by
  induction events with
  | nil =>
    intro p
    refine ⟨fun hst => ?_, fun _ => ⟨[], rfl⟩⟩
    simp [runReceive] at hst
  | cons ev rest ih =>
    intro p
    cases ev with
    | ioError m =>
      refine ⟨fun _ => ⟨[], m, rfl⟩, fun hst => ?_⟩
      exact absurd rfl hst
    | chunk c =>
      by_cases hc : c = []
      · refine ⟨fun hst => ?_, fun _ => ⟨[], ?_⟩⟩
        · simp [runReceive, hc] at hst
        · simp [runReceive, hc]
      · have hrw : runReceive g (ReadEvent.chunk c :: rest) p =
            match drainFrames g (p ++ c) with
            | DrainOut.more fs rem =>
              ((fs.map Msg.ok ++ (runReceive g rest rem).1), (runReceive g rest rem).2)
            | DrainOut.failed fs m => (fs.map Msg.ok ++ [Msg.err m], Stop.errorStop)
            | DrainOut.panicStop fs => (fs.map Msg.ok, Stop.panicStop) := by
          rw [runReceive]
          rw [if_neg hc]
        cases hd : drainFrames g (p ++ c) with
        | more fs rem =>
          rw [hrw]
          simp only [hd]
          obtain ⟨ih1, ih2⟩ := ih rem
          constructor
          · intro hst
            obtain ⟨fs2, m, hm⟩ := ih1 hst
            exact ⟨fs ++ fs2, m, by simp [hm]⟩
          · intro hst
            obtain ⟨fs2, hm⟩ := ih2 hst
            exact ⟨fs ++ fs2, by simp [hm]⟩
        | failed fs m =>
          rw [hrw]
          simp only [hd]
          exact ⟨fun _ => ⟨fs, m, rfl⟩, fun hst => absurd rfl hst⟩
        | panicStop fs =>
          rw [hrw]
          simp only [hd]
          refine ⟨fun hst => ?_, fun _ => ⟨fs, rfl⟩⟩
          simp at hst

theorem joinNL_eq_intercalate (ls : List (List Char)) :
    joinNL ls = List.intercalate ['\n'] ls := by
  induction ls with
  | nil => rfl
  | cons x xs ih =>
    cases xs with
    | nil => simp [joinNL, List.intercalate, List.intersperse]
    | cons y r =>
      simp [joinNL, List.intercalate, List.intersperse] at ih ⊢
      simp [ih]

theorem splitOnceColon_exact (name value : List Char) (h : ':' ∉ name) :
    splitOnceColon (name ++ ':' :: value) = some (name, value) := by
  induction name with
  | nil => simp [splitOnceColon]
  | cons c t ih =>
    have hc : c ≠ ':' := fun hh => h (by simp [hh])
    have ht : ':' ∉ t := fun hh => h (by simp [hh])
    simp [splitOnceColon, hc, ih ht]

/-! ### The claims -/

/-- C1: the claim says `parse` never panics — malformed input yields a
`MalformedFrame` error and truncated input always yields `NeedMoreData`. The
code violates this: `[10, 10, 0, 10]` (`"\n\n\x00\n"`) is a valid frame that
parses consuming all bytes, but its proper prefix `[10, 10, 0]` — truncated
just before the final LF — makes `parse` index `buffer[3]` out of bounds
(frame.rs line 110 guarded only by `buffer.len() < headers_end_position + 2`
on line 104), i.e. a panic instead of `Ok(None)`. -/
theorem claim_C1_panic_on_truncated_frame :
    ∀ g : List Nat → Option (List Char),
      parse g [10, 10, 0, 10] = ParseResult.parsed ⟨[], [], none⟩ 3 ∧
      parse g [10, 10, 0] = ParseResult.panicked :=
  fun _ => ⟨rfl, rfl⟩

/-- C2, counterexample: encoding `("SEND", [("destination", "/queue/a")],
Some "hi")` with `create` and feeding the bytes to `parse` does not return a
parsed frame at all: since no content-length header is present, the decoder
demands a NUL immediately after the blank separator line, finds `'h'` there,
and reports `MalformedFrame` — contradicting the claimed
`Parsed ("SEND", [("destination","/queue/a")], None)` result. -/
theorem claim_C2_counterexample :
    parse gNone (utf8Encode (create "SEND".data
        (some [("destination".data, "/queue/a".data)]) (some "hi".data))) =
      ParseResult.malformed "Frame not null terminated" := by
  decide

/-- C2, amended: encoding `("SEND", [("destination", "/queue/a")], Some "hi")`
with `create` yields `SEND\ndestination:/queue/a\n\nhi\x00`, and feeding those
bytes to `parse` returns the error `Frame not null terminated` (for every
decompressor, since the body path is never reached): the encoder's body
placement is not decodable by the no-content-length framing rule. -/
theorem claim_C2_amended :
    create "SEND".data (some [("destination".data, "/queue/a".data)])
        (some "hi".data) = "SEND\ndestination:/queue/a\n\nhi\x00".data ∧
    ∀ g : List Nat → Option (List Char),
      parse g (utf8Encode "SEND\ndestination:/queue/a\n\nhi\x00".data) =
        ParseResult.malformed "Frame not null terminated" :=
  ⟨by decide, fun _ => rfl⟩

/-- C4: `create` with no headers emits command, LF, LF, body (empty when
absent), NUL; with headers it renders each pair as `name:value`, joins the
rendered pairs with LF between the command line and the blank separator line,
then body and NUL — header names and values are emitted verbatim (no
escaping) and no content-length header is added. -/
theorem claim_C4_create_layout (command : List Char)
    (headers : List (List Char × List Char)) (body : Option (List Char)) :
    create command none body =
      command ++ '\n' :: '\n' :: body.getD [] ++ [Char.ofNat 0] ∧
    create command (some headers) body =
      command ++ '\n' ::
        (List.intercalate ['\n'] (headers.map (fun p => p.1 ++ ':' :: p.2))) ++
        '\n' :: '\n' :: body.getD [] ++ [Char.ofNat 0] := by
  constructor
  · simp [create]
  · simp [create, joinNL_eq_intercalate]

/-- C10: `create` with `Some []` (an empty header list) yields
command, LF, LF, LF, body, NUL — one extra LF compared with `create` with
`None`, which yields command, LF, LF, body, NUL — so the two calls never
produce the same bytes. -/
theorem claim_C10_empty_headers_differ (command : List Char) (body : Option (List Char)) :
    create command (some []) body =
      command ++ '\n' :: '\n' :: '\n' :: body.getD [] ++ [Char.ofNat 0] ∧
    create command none body =
      command ++ '\n' :: '\n' :: body.getD [] ++ [Char.ofNat 0] ∧
    create command (some []) body ≠ create command none body := by
  refine ⟨by simp [create, joinNL], by simp [create], fun hcontra => ?_⟩
  have hlen := congrArg List.length hcontra
  simp [create, joinNL] at hlen

/-- C3: for every valid encoded no-body frame — command bytes (no LF), LF,
header lines (each non-empty, LF-free, ending in LF), the separator LF, NUL,
LF, with the command and header regions valid UTF-8 and no usable
content-length header — every prefix cut strictly before the terminating NUL
parses as `NeedMoreData`, and the full buffer parses with returned end index
`e` satisfying `e + 1 = length` (the receive loop drains `e + 1` bytes, i.e.
the whole input). -/
theorem claim_C3_nobody_roundtrip (g : List Nat → Option (List Char))
    (cmd : List Nat) (lines : List (List Nat)) (cmdC hdrC : List Char)
    (hc : 10 ∉ cmd) (hl : ∀ l ∈ lines, l ≠ [] ∧ 10 ∉ l)
    (hdc : utf8Decode? cmd = some cmdC)
    (hdh : utf8Decode? (hdrFlat lines) = some hdrC)
    (hcl : findContentLength (decodeHeaderLines (linesRust hdrC)) = none) :
    (∀ k, k < cmd.length + (hdrFlat lines).length + 2 →
      parse g ((noBodyWire cmd lines).take k) = ParseResult.needMoreData) ∧
    ∃ e, parse g (noBodyWire cmd lines) =
        ParseResult.parsed
          ⟨trimEnd cmdC, decodeHeaderLines (linesRust hdrC), none⟩ e ∧
      e + 1 = (noBodyWire cmd lines).length := by
  refine ⟨fun k hk => parse_noBody_take g cmd lines hc hl k hk,
    ⟨cmd.length + (hdrFlat lines).length + 3,
     parse_noBody g cmd lines cmdC hdrC hc hl hdc hdh hcl, ?_⟩⟩
  simp [noBodyWire]
  try omega

/-- Witness for C3 at the frame `SEND\nd:v\n\n\x00\n`: the prefix of length 5
needs more data, and the full 12-byte frame parses with end index 11. -/
theorem claim_C3_witness :
    parse gNone ((noBodyWire [83, 69, 78, 68] [[100, 58, 118]]).take 5) =
      ParseResult.needMoreData ∧
    ∃ e, parse gNone (noBodyWire [83, 69, 78, 68] [[100, 58, 118]]) =
        ParseResult.parsed
          ⟨trimEnd "SEND".data,
           decodeHeaderLines (linesRust "d:v\n".data), none⟩ e ∧
      e + 1 = (noBodyWire [83, 69, 78, 68] [[100, 58, 118]]).length := by
  have h := claim_C3_nobody_roundtrip gNone [83, 69, 78, 68] [[100, 58, 118]]
    "SEND".data "d:v\n".data (by decide) (by decide) (by decide) (by decide) (by decide)
  exact ⟨h.1 5 (by decide), h.2⟩

/-- C5: two wire frames, each of which `parse` consumes exactly (returned end
index plus one equals its length), concatenated into one buffer: the first
`parse` yields the first frame with its own byte span, removing the consumed
prefix (end index + 1 bytes, as `receive_bytes` drains) leaves exactly the
second frame, and parsing the remainder yields the second frame. -/
theorem claim_C5_two_frames (g : List Nat → Option (List Char)) (b1 b2 : List Nat)
    (f1 f2 : Frame) (e1 e2 : Nat)
    (h1 : parse g b1 = ParseResult.parsed f1 e1) (hc1 : e1 + 1 = b1.length)
    (h2 : parse g b2 = ParseResult.parsed f2 e2) (hc2 : e2 + 1 = b2.length) :
    parse g (b1 ++ b2) = ParseResult.parsed f1 e1 ∧
    (b1 ++ b2).drop (e1 + 1) = b2 ∧
    parse g ((b1 ++ b2).drop (e1 + 1)) = ParseResult.parsed f2 e2 := by
  have hstable := parse_append_stable g b1 b2 f1 e1 hc1 h1
  have hdrop : (b1 ++ b2).drop (e1 + 1) = b2 := by
    rw [hc1]
    exact List.drop_left b1 b2
  exact ⟨hstable, hdrop, by rw [hdrop]; exact h2⟩

/-- Witness for C5 with the frames `A\n\n\x00\n` and `B\n\n\x00\n`. -/
theorem claim_C5_witness :
    parse gNone ([65, 10, 10, 0, 10] ++ [66, 10, 10, 0, 10]) =
      ParseResult.parsed ⟨"A".data, [], none⟩ 4 ∧
    parse gNone (([65, 10, 10, 0, 10] ++ [66, 10, 10, 0, 10]).drop 5) =
      ParseResult.parsed ⟨"B".data, [], none⟩ 4 := by
  have h := claim_C5_two_frames gNone [65, 10, 10, 0, 10] [66, 10, 10, 0, 10]
    ⟨"A".data, [], none⟩ ⟨"B".data, [], none⟩ 4 4
    (by decide) (by decide) (by decide) (by decide)
  exact ⟨h.1, h.2.2⟩

/-- C9: the command is extracted with `trim_end`, which strips all trailing
whitespace — spaces and tabs included, not only carriage control: a command
line of `SEND` followed by any mix of trailing spaces (32) and tabs (9)
decodes to exactly the command `SEND`. -/
theorem claim_C9_trim_spaces_tabs (g : List Nat → Option (List Char))
    (ws : List Nat) (hws : ∀ b ∈ ws, b = 32 ∨ b = 9) :
    parse g (([83, 69, 78, 68] ++ ws) ++ [10, 10, 0, 10]) =
      ParseResult.parsed ⟨"SEND".data, [], none⟩ (([83, 69, 78, 68] ++ ws).length + 3) := by
  have hshape : ([83, 69, 78, 68] ++ ws) ++ [10, 10, 0, 10] =
      noBodyWire ([83, 69, 78, 68] ++ ws) [] := by
    simp [noBodyWire, hdrFlat]
  have h128 : ∀ x ∈ [83, 69, 78, 68] ++ ws, x < 128 := by
    intro x hx
    rcases List.mem_append.mp hx with hx | hx
    · simp at hx
      rcases hx with h | h | h | h <;> omega
    · rcases hws x hx with h | h <;> omega
  have h10 : 10 ∉ [83, 69, 78, 68] ++ ws := by
    intro hx
    rcases List.mem_append.mp hx with hx | hx
    · simp at hx
    · rcases hws 10 hx with h | h <;> omega
  have hdec := utf8_ascii _ h128
  have hmaster := parse_noBody g ([83, 69, 78, 68] ++ ws) [] _ []
    h10 (by simp) hdec rfl rfl
  rw [hshape, hmaster]
  have hwsmap : ∀ c ∈ ws.map Char.ofNat, isRustWhitespace c = true := by
    intro c hc
    obtain ⟨b, hb, rfl⟩ := List.mem_map.mp hc
    rcases hws b hb with h | h <;> subst h <;> decide
  have hcmd : trimEnd (([83, 69, 78, 68] ++ ws).map Char.ofNat) = "SEND".data := by
    rw [List.map_append, trimEnd_append_ws _ _ hwsmap]
    decide
  rw [hcmd]
  have hhdr : decodeHeaderLines (linesRust []) = [] := rfl
  rw [hhdr]
  simp [hdrFlat]

/-- Witness for C9 with one trailing space and one trailing tab. -/
theorem claim_C9_witness :
    parse gNone (([83, 69, 78, 68] ++ [32, 9]) ++ [10, 10, 0, 10]) =
      ParseResult.parsed ⟨"SEND".data, [], none⟩ 9 := by
  have h := claim_C9_trim_spaces_tabs gNone [32, 9] (by decide)
  simpa using h

/-- C6: for a decoded header line `name:value`, `parse` applies exactly four
global substitutions to the value, in the source's fixed order — `\r` to CR,
then `\n` to LF, then `\c` to colon, then `\\` to backslash — as stated
explicitly by the nested `replace2` chain in the conclusion (innermost first);
the name is lower-cased. The byte `58` is the colon separating name from
value on the wire. -/
theorem claim_C6_escape_order (g : List Nat → Option (List Char))
    (cmd : List Nat) (cmdC : List Char) (nameB valueB : List Nat)
    (nameC valueC : List Char)
    (hcmd10 : 10 ∉ cmd) (hdcmd : utf8Decode? cmd = some cmdC)
    (hnB : 10 ∉ nameB) (hvB : 10 ∉ valueB)
    (hdn : utf8Decode? nameB = some nameC) (hdv : utf8Decode? valueB = some valueC)
    (hnNE : nameC ≠ []) (hnColon : ':' ∉ nameC)
    (hnNL : '\n' ∉ nameC) (hvNL : '\n' ∉ valueC)
    (hvCR : valueC.getLast? ≠ some '\r')
    (hnCL : toLowerStr nameC ≠ contentLengthName) :
    ∃ e, parse g (cmd ++ [10] ++ (nameB ++ 58 :: valueB) ++ [10, 10, 0, 10]) =
      ParseResult.parsed
        ⟨trimEnd cmdC,
         [(toLowerStr nameC,
           replace2 '\\' '\\' ['\\']
             (replace2 '\\' 'c' [':']
               (replace2 '\\' 'n' ['\n']
                 (replace2 '\\' 'r' ['\r'] valueC))))],
         none⟩ e := by
  have hlineNE : nameB ++ 58 :: valueB ≠ [] := by simp
  have hline10 : 10 ∉ nameB ++ 58 :: valueB := by
    intro hx
    rcases List.mem_append.mp hx with hx | hx
    · exact hnB hx
    · rcases List.mem_cons.mp hx with hx | hx
      · exact absurd hx (by decide)
      · exact hvB hx
  have hshape : cmd ++ [10] ++ (nameB ++ 58 :: valueB) ++ [10, 10, 0, 10] =
      noBodyWire cmd [nameB ++ 58 :: valueB] := by
    simp [noBodyWire, hdrFlat]
  have hdcolon : utf8Decode? (58 :: valueB) = some (':' :: valueC) := by
    have h := utf8_append [58] [':'] valueB valueC (by decide) hdv
    simpa using h
  have hdline : utf8Decode? (nameB ++ 58 :: valueB) = some (nameC ++ ':' :: valueC) :=
    utf8_append nameB nameC (58 :: valueB) (':' :: valueC) hdn hdcolon
  have hdflat : utf8Decode? (hdrFlat [nameB ++ 58 :: valueB]) =
      some ((nameC ++ ':' :: valueC) ++ ['\n']) := by
    have h := utf8_append (nameB ++ 58 :: valueB) (nameC ++ ':' :: valueC)
      [10] ['\n'] hdline (by decide)
    simpa [hdrFlat] using h
  have hlNL : '\n' ∉ nameC ++ ':' :: valueC := by
    intro hx
    rcases List.mem_append.mp hx with hx | hx
    · exact hnNL hx
    · rcases List.mem_cons.mp hx with hx | hx
      · exact absurd hx (by decide)
      · exact hvNL hx
  have hlCR : (nameC ++ ':' :: valueC).getLast? ≠ some '\r' := by
    rw [List.getLast?_append_cons]
    cases valueC with
    | nil => decide
    | cons v vs =>
      rw [List.getLast?_cons_cons]
      exact hvCR
  have hlines : linesRust ((nameC ++ ':' :: valueC) ++ ['\n']) = [nameC ++ ':' :: valueC] :=
    linesRust_single _ hlNL hlCR
  have hne2 : nameC ++ ':' :: valueC ≠ [] := by simp
  have hhdrs : decodeHeaderLines [nameC ++ ':' :: valueC] =
      [(toLowerStr nameC,
        replace2 '\\' '\\' ['\\']
          (replace2 '\\' 'c' [':']
            (replace2 '\\' 'n' ['\n']
              (replace2 '\\' 'r' ['\r'] valueC))))] := by
    simp [decodeHeaderLines, decodeHeaderLine, hne2,
      splitOnceColon_exact nameC valueC hnColon, hnNE]
  have hclFull : findContentLength (decodeHeaderLines
      (linesRust ((nameC ++ ':' :: valueC) ++ ['\n']))) = none := by
    rw [hlines, hhdrs]
    simp [findContentLength, hnCL]
  have hl1 : ∀ l ∈ [nameB ++ 58 :: valueB], l ≠ [] ∧ 10 ∉ l := by
    intro l hlmem
    rw [List.mem_singleton] at hlmem
    subst hlmem
    exact ⟨hlineNE, hline10⟩
  have hmaster := parse_noBody g cmd [nameB ++ 58 :: valueB] cmdC
    ((nameC ++ ':' :: valueC) ++ ['\n']) hcmd10 hl1 hdcmd hdflat hclFull
  refine ⟨cmd.length + (hdrFlat [nameB ++ 58 :: valueB]).length + 3, ?_⟩
  rw [hshape, hmaster, hlines, hhdrs]

/-- Witness for C6 at the spec's example: the wire header `h:a\cb\nc` (with
literal backslashes) decodes to name `h` and value `a:b`, LF, `c`. -/
theorem claim_C6_witness :
    ∃ e, parse gNone
        ([83, 69, 78, 68] ++ [10] ++
          ([104] ++ 58 :: [97, 92, 99, 98, 92, 110, 99]) ++ [10, 10, 0, 10]) =
      ParseResult.parsed ⟨"SEND".data, [("h".data, "a:b\nc".data)], none⟩ e := by
  obtain ⟨e, he⟩ := claim_C6_escape_order gNone [83, 69, 78, 68] "SEND".data
    [104] [97, 92, 99, 98, 92, 110, 99] "h".data "a\\cb\\nc".data
    (by decide) (by decide) (by decide) (by decide) (by decide) (by decide)
    (by decide) (by decide) (by decide) (by decide) (by decide) (by decide)
  refine ⟨e, ?_⟩
  rw [he]
  have hframe : (⟨trimEnd "SEND".data,
      [(toLowerStr "h".data,
        replace2 '\\' '\\' ['\\']
          (replace2 '\\' 'c' [':']
            (replace2 '\\' 'n' ['\n']
              (replace2 '\\' 'r' ['\r'] "a\\cb\\nc".data))))],
      none⟩ : Frame) = ⟨"SEND".data, [("h".data, "a:b\nc".data)], none⟩ := by
    decide
  rw [hframe]

/-- C7: a frame whose decoded headers contain a content-length header with a
value that does not parse as an unsigned integer (and no content-length
header with a parsable value) is not rejected: `parse` behaves exactly as if
content-length were absent, applying the no-body framing rule (NUL + LF right
after the separator) and returning a frame with `body = none` that consumes
the whole buffer. -/
theorem claim_C7_nonnumeric_content_length (g : List Nat → Option (List Char))
    (cmd : List Nat) (lines : List (List Nat)) (cmdC hdrC : List Char)
    (hc : 10 ∉ cmd) (hl : ∀ l ∈ lines, l ≠ [] ∧ 10 ∉ l)
    (hdc : utf8Decode? cmd = some cmdC)
    (hdh : utf8Decode? (hdrFlat lines) = some hdrC)
    (hAll : ∀ p ∈ decodeHeaderLines (linesRust hdrC),
      p.1 = contentLengthName → parseUsize? p.2 = none)
    (_hHas : ∃ p ∈ decodeHeaderLines (linesRust hdrC), p.1 = contentLengthName) :
    ∃ e, parse g (noBodyWire cmd lines) =
        ParseResult.parsed
          ⟨trimEnd cmdC, decodeHeaderLines (linesRust hdrC), none⟩ e ∧
      e + 1 = (noBodyWire cmd lines).length := by
  have hcl := findContentLength_none _ hAll
  refine ⟨cmd.length + (hdrFlat lines).length + 3,
    parse_noBody g cmd lines cmdC hdrC hc hl hdc hdh hcl, ?_⟩
  simp [noBodyWire]
  try omega

/-- Witness for C7 at the frame `SEND\ncontent-length:abc\n\n\x00\n`. -/
theorem claim_C7_witness :
    ∃ e, parse gNone (noBodyWire [83, 69, 78, 68]
        [[99, 111, 110, 116, 101, 110, 116, 45, 108, 101, 110, 103, 116, 104,
          58, 97, 98, 99]]) =
        ParseResult.parsed
          ⟨trimEnd "SEND".data,
           decodeHeaderLines (linesRust "content-length:abc\n".data), none⟩ e ∧
      e + 1 = (noBodyWire [83, 69, 78, 68]
        [[99, 111, 110, 116, 101, 110, 116, 45, 108, 101, 110, 103, 116, 104,
          58, 97, 98, 99]]).length :=
  claim_C7_nonnumeric_content_length gNone [83, 69, 78, 68]
    [[99, 111, 110, 116, 101, 110, 116, 45, 108, 101, 110, 103, 116, 104,
      58, 97, 98, 99]]
    "SEND".data "content-length:abc\n".data
    (by decide) (by decide) (by decide) (by decide) (by decide) (by decide)

/-- C8: over any sequence of socket read events, the receive loop forwards
each completely parsed frame as one `Ok` message in parse order, and sends an
`Err` message exactly when it stops with `errorStop` (a read error or a
malformed frame), as the final message — so a clean exit on a zero-length
read sends no error, and no run ever sends more than one error. -/
theorem claim_C8_one_error_then_stop (g : List Nat → Option (List Char))
    (events : List ReadEvent) :
    ((runReceive g events []).2 = Stop.errorStop →
      ∃ (fs : List Frame) (m : String),
        (runReceive g events []).1 = fs.map Msg.ok ++ [Msg.err m]) ∧
    ((runReceive g events []).2 ≠ Stop.errorStop →
      ∃ fs : List Frame, (runReceive g events []).1 = fs.map Msg.ok) :=
  runReceive_shape g events []

/-- Witness for C8: a chunk holding the malformed frame `A\n\nA\n` makes the
loop send exactly one error message and stop. -/
theorem claim_C8_witness :
    ∃ (fs : List Frame) (m : String),
      (runReceive gNone [ReadEvent.chunk [65, 10, 10, 65, 10]] []).1 =
        fs.map Msg.ok ++ [Msg.err m] := by
  apply (claim_C8_one_error_then_stop gNone [ReadEvent.chunk [65, 10, 10, 65, 10]]).1
  have hp : parse gNone [65, 10, 10, 65, 10] =
      ParseResult.malformed "Frame not null terminated" := by decide
  have hd : drainFrames gNone ([] ++ [65, 10, 10, 65, 10]) =
      DrainOut.failed [] "Frame not null terminated" := by
    simpa using drainFrames_eq_malformed gNone [65, 10, 10, 65, 10] _ hp
  rw [runReceive]
  rw [if_neg (by decide)]
  simp only [hd]

end Stomp
